import Mathlib

/-
  Verification of the Wikipedia contribution-report pipeline (src/wiki.py).

  Shallow embedding notes:
  * A Revision models one element of the iterator consumed by
    `get_revision_data` (src/wiki.py lines 28-35): the two fields read by the
    code, `user` and `size`, each possibly absent (`rev.get(...)`), with
    `size` a non-negative integer (the cumulative page size).
  * Python integers are modelled as `Int`/`Nat`; the percentage arithmetic
    (Python floats) is modelled in exact rational arithmetic `Rat`, and the
    `%.2f` formatting as round-half-even on the exact rational value.
  * `defaultdict` iteration order is Python dict insertion order: modelled as
    an association list to which a fresh key is appended on first touch.
  * Python `list.sort(key=..., reverse=True)` is a stable descending sort:
    modelled with `List.mergeSort` (stable) on the flipped comparison.
  * `html.escape` (quote=True) replaces the five characters in an order that
    makes it equal to the character-wise map embedded here.
  * `create_html_report` writes its template string to a file; the embedding
    returns that string (the file sink is out of scope per the spec).
-/

namespace Wiki

/-- One revision record as consumed by the diff-processor loop:
the fields `user` and `size` may each be absent. -/
structure Revision where
  user : Option String
  size : Option Nat
deriving DecidableEq

/-- One element of `contribution_data`: the dict
with keys user and change built at src/wiki.py lines 31-34. -/
structure DeltaRec where
  user : String
  change : ℤ
deriving DecidableEq

/-- The loop of `get_revision_data` (src/wiki.py lines 25-35), with the
running `previous_size` as an explicit parameter (initialised to 0). -/
def revLoop : List Revision → ℤ → List DeltaRec
  | [], _ => []
  | r :: rs, previous_size =>
      let current_size : ℤ := (r.size.getD 0 : Nat)
      { user := r.user.getD ("Unknown"), change := current_size - previous_size }
        :: revLoop rs current_size

/-- The diff processor: the pure core of `get_revision_data`
(src/wiki.py lines 24-38), taking the already-materialised ordered
revision sequence. -/
def get_revision_data (revs : List Revision) : List DeltaRec :=
  revLoop revs 0

/-- The per-user statistics record of `aggregate_user_stats`
(src/wiki.py line 47). -/
structure Stats where
  edits : ℕ
  text_added : ℤ
  text_removed : ℤ
deriving DecidableEq

/-- The zero-initialised record produced by the defaultdict factory
(src/wiki.py line 47). -/
def Stats.fresh : Stats :=
  { edits := 0, text_added := 0, text_removed := 0 }

/-- The loop body of `aggregate_user_stats` applied to one record's change
(src/wiki.py lines 53-57). -/
def applyDelta (s : Stats) (change : ℤ) : Stats :=
  { edits := s.edits + 1
    text_added := if 0 < change then s.text_added + change else s.text_added
    text_removed := if 0 < change then s.text_removed else s.text_removed + |change| }

/-- The `user_stats` defaultdict, in Python dict insertion order. -/
abbrev StatsMap := List (String × Stats)

/-- Mutating `user_stats[user]` for one delta record: update the existing
entry, or append a fresh zero record on first encounter (defaultdict
semantics, insertion-ordered). -/
def updateMap : StatsMap → String → ℤ → StatsMap
  | [], u, c => [(u, applyDelta Stats.fresh c)]
  | (k, v) :: rest, u, c =>
      if k = u then (k, applyDelta v c) :: rest
      else (k, v) :: updateMap rest u c

/-- Lookup in the modelled defaultdict (read-only, no entry creation). -/
def lookupMap : StatsMap → String → Option Stats
  | [], _ => none
  | (k, v) :: rest, u => if k = u then some v else lookupMap rest u

/-- The aggregation loop of src/wiki.py lines 49-57 over all delta records. -/
def accumulate (ds : List DeltaRec) : StatsMap :=
  ds.foldl (fun m d => updateMap m d.user d.change) []

/-- The quantity `total_text_added` of src/wiki.py line 59. -/
def total_text_added (ds : List DeltaRec) : ℤ :=
  ((accumulate ds).map (fun p => p.2.text_added)).sum

/-- One element of `processed_stats` (src/wiki.py lines 68-72). -/
structure ProcessedStats where
  user : String
  percentage : ℚ
  edits : ℕ
  text_added : ℤ
  text_removed : ℤ
deriving DecidableEq

/-- The sort comparison of src/wiki.py line 74: stable sort with
key percentage, descending. -/
def percDesc (a b : ProcessedStats) : Bool :=
  decide (b.percentage ≤ a.percentage)

/-- The `processed_stats` list before sorting (src/wiki.py lines 65-72),
one entry per defaultdict entry in insertion order, with the redundant
inner guard `if total_text_added > 0 else 0` of line 67 kept. -/
def processed_stats (ds : List DeltaRec) : List ProcessedStats :=
  (accumulate ds).map (fun p =>
    { user := p.1
      percentage :=
        if 0 < total_text_added ds then
          ((p.2.text_added : ℚ) / (total_text_added ds : ℚ)) * 100
        else 0
      edits := p.2.edits
      text_added := p.2.text_added
      text_removed := p.2.text_removed })

/-- The contribution aggregator `aggregate_user_stats`
(src/wiki.py lines 45-76): empty result when no text was added
(lines 61-63), otherwise the processed list stably sorted by
percentage descending (line 74). -/
def aggregate_user_stats (ds : List DeltaRec) : List ProcessedStats :=
  if total_text_added ds = 0 then []
  else (processed_stats ds).mergeSort percDesc

/-- The double-quote character, kept as a named constant. -/
def quoteChar : Char := Char.ofNat 34

/-- The single-quote character, kept as a named constant. -/
def aposChar : Char := Char.ofNat 39

/-- The per-character effect of Python `html.escape` with quote=True:
the stdlib replaces ampersands first and then the other four characters,
which equals this character-wise map. -/
def escapeChar (c : Char) : List Char :=
  if c = '&' then ("&amp;").data
  else if c = '<' then ("&lt;").data
  else if c = '>' then ("&gt;").data
  else if c = quoteChar then ("&quot;").data
  else if c = aposChar then ("&#x27;").data
  else [c]

/-- Python `html.escape` (src/wiki.py line 84 and lines 111, 198). -/
def htmlEscape (s : String) : String :=
  ⟨s.data.flatMap escapeChar⟩

/-- Base-10 digits of `n`, least significant first, using explicit fuel
(empty for 0; the callers special-case 0). -/
def digitsRev : Nat → Nat → List Nat
  | 0, _ => []
  | _ + 1, 0 => []
  | fuel + 1, n => n % 10 :: digitsRev fuel (n / 10)

/-- Decimal string of a natural number, no grouping. -/
def natStr (n : Nat) : String :=
  if n = 0 then ("0") else ⟨((digitsRev n n).map Nat.digitChar).reverse⟩

/-- Comma grouping: consume least-significant-first digits, producing the
reversed character string with a comma after every third digit that is
followed by more digits (Python format spec comma option). -/
def commaRev : List Nat → Nat → List Char
  | [], _ => []
  | d :: ds, k =>
      Nat.digitChar d ::
        (if (k + 1) % 3 = 0 ∧ ds ≠ [] then ',' :: commaRev ds (k + 1)
         else commaRev ds (k + 1))

/-- Python comma-grouped decimal formatting of a natural number
(the comma option of the format spec). -/
def commaNat (n : Nat) : String :=
  if n = 0 then ("0") else ⟨(commaRev (digitsRev n n) 0).reverse⟩

/-- Python comma-grouped decimal formatting of an integer. -/
def commaInt (n : ℤ) : String :=
  (if n < 0 then ("-") else ("")) ++ commaNat n.natAbs

/-- Round to the nearest integer, ties to even (the rounding used by
Python float formatting, taken here on the exact rational value). -/
def halfEven (x : ℚ) : ℤ :=
  let f := ⌊x⌋
  if x - f < 1 / 2 then f
  else if 1 / 2 < x - f then f + 1
  else if 2 ∣ f then f else f + 1

/-- Python fixed-point formatting with two decimals (format spec .2f),
modelled on the exact rational value
(the sign of a negative value that rounds to zero is not modelled). -/
def format2 (x : ℚ) : String :=
  let n := halfEven (x * 100)
  let a := n.natAbs
  (if n < 0 then ("-") else ("")) ++ natStr (a / 100) ++ (".")
    ++ ⟨[Nat.digitChar (a % 100 / 10), Nat.digitChar (a % 10)]⟩

/-- The rational value denoted by the two-decimal rendering of `x`. -/
def twoDecimalValue (x : ℚ) : ℚ :=
  (halfEven (x * 100) : ℚ) / 100

/-- Static segments of the per-row f-string (src/wiki.py lines 90-103). -/
def rowSeg1 : String := "\n        <tr>\n            <td><a href=\"https://en.wikipedia.org/wiki/User:"

/-- Row segment between the two insertions of the escaped user name. -/
def rowSeg2 : String := "\" target=\"_blank\">"

/-- Row segment from the user link to the progress-bar width. -/
def rowSeg3 : String := "</a></td>\n            <td>\n                <div class=\"progress-bar-container\">\n                    <div class=\"progress-bar\" style=\"width: "

/-- Row segment from the bar width to the percentage label. -/
def rowSeg4 : String := "%;\"></div>\n                </div>\n            </td>\n            <td class=\"percentage-label\">"

/-- Row segment from the percentage label to the edit count. -/
def rowSeg5 : String := "%</td>\n            <td class=\"number\">"

/-- Row segment from the edit count to the added bytes (with the + sign). -/
def rowSeg6 : String := "</td>\n            <td class=\"number added\">+"

/-- Row segment from the added bytes to the removed bytes (with the - sign). -/
def rowSeg7 : String := "</td>\n            <td class=\"number removed\">-"

/-- Closing row segment. -/
def rowSeg8 : String := "</td>\n        </tr>\n        "

/-- One table row (the f-string appended at src/wiki.py lines 90-103,
with the local bindings of lines 84-88 inlined). -/
def rowHtml (d : ProcessedStats) : String :=
  rowSeg1 ++ htmlEscape d.user ++ rowSeg2 ++ htmlEscape d.user ++ rowSeg3
    ++ format2 d.percentage ++ rowSeg4 ++ format2 d.percentage ++ rowSeg5
    ++ commaNat d.edits ++ rowSeg6 ++ commaInt d.text_added ++ rowSeg7
    ++ commaInt d.text_removed ++ rowSeg8

/-- The `table_rows` accumulation (src/wiki.py lines 82-103). -/
def table_rows (stats : List ProcessedStats) : String :=
  stats.foldl (fun acc d => acc ++ rowHtml d) ("")

/-- Template up to the first escaped page title (src/wiki.py lines 105-111). -/
def tmplSeg1 : String := "\n<!DOCTYPE html>\n<html lang=\"en\">\n<head>\n    <meta charset=\"UTF-8\">\n    <meta name=\"viewport\" content=\"width=device-width, initial-scale=1.0\">\n    <title>Wikipedia Contribution Report: "

/-- Template between the two escaped page titles: the style block and the
opening of the body (src/wiki.py lines 111-198). -/
def tmplSeg2 : String := "</title>\n    <style>\n        body \x7b\n            font-family: -apple-system, BlinkMacSystemFont, \"Segoe UI\", Roboto, Helvetica, Arial, sans-serif;\n            background-color: #f8f9fa;\n            color: #212529;\n            margin: 0;\n            padding: 20px;\n        \x7d\n        .container \x7b\n            max-width: 960px;\n            margin: auto;\n            background-color: #ffffff;\n            border-radius: 8px;\n            box-shadow: 0 4px 8px rgba(0,0,0,0.05);\n            padding: 30px;\n        \x7d\n        h1 \x7b\n            color: #343a40;\n            border-bottom: 2px solid #dee2e6;\n            padding-bottom: 10px;\n            margin-top: 0;\n        \x7d\n        p.summary \x7b\n            font-size: 1.1em;\n            color: #6c757d;\n        \x7d\n        table \x7b\n            width: 100%;\n            border-collapse: collapse;\n            margin-top: 20px;\n        \x7d\n        th, td \x7b\n            padding: 12px 15px;\n            text-align: left;\n            border-bottom: 1px solid #dee2e6;\n        \x7d\n        thead th \x7b\n            background-color: #e9ecef;\n            font-weight: 600;\n            color: #495057;\n        \x7d\n        tbody tr:nth-of-type(even) \x7b\n            background-color: #f8f9fa;\n        \x7d\n        tbody tr:hover \x7b\n            background-color: #e9ecef;\n        \x7d\n        a \x7b\n            color: #007bff;\n            text-decoration: none;\n        \x7d\n        a:hover \x7b\n            text-decoration: underline;\n        \x7d\n        .progress-bar-container \x7b\n            width: 100%;\n            background-color: #e9ecef;\n            border-radius: 5px;\n            height: 20px;\n            overflow: hidden;\n        \x7d\n        .progress-bar \x7b\n            background: linear-gradient(90deg, #28a745, #218838);\n            height: 100%;\n            text-align: right;\n            color: white;\n            line-height: 20px;\n            border-radius: 5px;\n            transition: width 0.5s ease-in-out;\n        \x7d\n        .percentage-label \x7b\n            font-weight: bold;\n            min-width: 70px;\n            text-align: right;\n        \x7d\n        .number \x7b\n            text-align: right;\n            font-family: \"Courier New\", Courier, monospace;\n        \x7d\n        .added \x7b color: #28a745; \x7d\n        .removed \x7b color: #dc3545; \x7d\n    </style>\n</head>\n<body>\n    <div class=\"container\">\n        <h1>Contribution Report</h1>\n        <p class=\"summary\">Analysis of user contributions for the Wikipedia article: <strong>"

/-- Template from the second escaped page title to the table body. -/
def tmplSeg3 : String := "</strong></p>\n        \n        <table>\n            <thead>\n                <tr>\n                    <th>User</th>\n                    <th style=\"width: 30%;\">Contribution (% of Text Added)</th>\n                    <th></th>\n                    <th>Edits</th>\n                    <th>Bytes Added</th>\n                    <th>Bytes Removed</th>\n                </tr>\n            </thead>\n            <tbody>\n                "

/-- Closing template segment. -/
def tmplSeg4 : String := "\n            </tbody>\n        </table>\n    </div>\n</body>\n</html>\n    "

/-- The report renderer: the document value built by `create_html_report`
(src/wiki.py lines 79-218); writing it to a file is the out-of-scope sink. -/
def create_html_report (stats : List ProcessedStats) (page_title : String) : String :=
  tmplSeg1 ++ htmlEscape page_title ++ tmplSeg2 ++ htmlEscape page_title
    ++ tmplSeg3 ++ table_rows stats ++ tmplSeg4

/-- Substring occurrence on character lists. -/
def occursIn (xs ys : List Char) : Prop :=
  ∃ pre post, ys = pre ++ xs ++ post

/-- The size recorded by the predecessor of revision `i` (0 before the
first revision), as used by the spec's delta formula. -/
def prevSize (revs : List Revision) (i : Nat) : ℤ :=
  if i = 0 then 0 else ((revs.getD (i - 1) ⟨none, none⟩).size.getD 0 : Nat)

/-- The cumulative size of the last revision, 0 for the empty history. -/
def lastSize (revs : List Revision) : ℤ :=
  match revs.getLast? with
  | none => 0
  | some r => (r.size.getD 0 : Nat)

/-- First-encounter order of the authors of a delta sequence. -/
def firstSeen (ds : List DeltaRec) : List String :=
  ds.foldl (fun acc d => if d.user ∈ acc then acc else acc ++ [d.user]) []

/-- The cumulative size of the last revision, with `p` the running size
carried into the (possibly empty) remainder of the history. -/
def lastSizeFrom (revs : List Revision) (p : ℤ) : ℤ :=
  match revs.getLast? with
  | none => p
  | some r => (r.size.getD 0 : Nat)

/-- The revision sequence of the spec's concrete scenario. -/
def demoRevs : List Revision :=
  [⟨some ("A"), some 100⟩, ⟨some ("B"), some 150⟩, ⟨some ("A"), some 120⟩]

/-- The delta sequence of the spec's concrete scenario. -/
def demoDeltas : List DeltaRec :=
  [⟨("A"), 100⟩, ⟨("B"), 50⟩, ⟨("A"), -30⟩]

/-- A character that can never act as markup: not a tag opener or closer
and not a quote in either style. -/
def safeChar (c : Char) : Prop :=
  c ≠ '<' ∧ c ≠ '>' ∧ c ≠ quoteChar ∧ c ≠ aposChar

instance (c : Char) : Decidable (safeChar c) := by
  unfold safeChar
  infer_instance

/-- The concatenation of the rendered rows, head first (the recursion view
of the `table_rows +=` loop). -/
def rowsJoin : List ProcessedStats → String
  | [] => ("")
  | d :: rest => rowHtml d ++ rowsJoin rest

/-- A processed record whose exact percentage 100/3 is not representable
with two decimal places. -/
def cex9 : ProcessedStats :=
  { user := ("A"), percentage := 100 / 3, edits := 1, text_added := 1, text_removed := 0 }

/-- The part of `rowSeg3` before its trailing width prefix. -/
def rowSeg3a : String := "</a></td>\n            <td>\n                <div class=\"progress-bar-container\">\n                    <div class=\"progress-bar\" style=\""

/-- The part of `rowSeg4` after its leading percent-semicolon. -/
def rowSeg4b : String := "\"></div>\n                </div>\n            </td>\n            <td class=\"percentage-label\">"

/-- The part of `rowSeg5` after its leading percent sign and cell close. -/
def rowSeg5b : String := "\n            <td class=\"number\">"

/-- The ten decimal digit characters. -/
def digitChars : List Char := ("0123456789").data

/-! Supporting lemmas about the diff-processor loop. -/

theorem revLoop_length (revs : List Revision) (p : ℤ) :
    (revLoop revs p).length = revs.length := by
  induction revs generalizing p with
  | nil => rfl
  | cons r rs ih => simp [revLoop, ih]

theorem revLoop_getD (revs : List Revision) (p : ℤ) (i : Nat) (h : i < revs.length) :
    (revLoop revs p).getD i ⟨("Unknown"), 0⟩ =
      { user := (revs.getD i ⟨none, none⟩).user.getD ("Unknown")
        change := ((revs.getD i ⟨none, none⟩).size.getD 0 : ℤ) -
          (if i = 0 then p
           else ((revs.getD (i - 1) ⟨none, none⟩).size.getD 0 : ℤ)) } := by
  induction revs generalizing p i with
  | nil => simp at h
  | cons r rs ih =>
      cases i with
      | zero => simp [revLoop, List.getD]
      | succ j =>
          have hj : j < rs.length := by simpa using h
          have := ih ((r.size.getD 0 : Nat) : ℤ) j hj
          cases j with
          | zero => simpa [revLoop, List.getD] using this
          | succ k => simpa [revLoop, List.getD] using this

theorem lastSizeFrom_cons (r : Revision) (rs : List Revision) (p : ℤ) :
    lastSizeFrom (r :: rs) p = lastSizeFrom rs ((r.size.getD 0 : Nat) : ℤ) := by
  cases rs with
  | nil => simp [lastSizeFrom]
  | cons b l =>
      simp only [lastSizeFrom, List.getLast?_cons_cons]
      cases hl : (b :: l).getLast? with
      | none => simp at hl
      | some x => rfl

theorem revLoop_sum (revs : List Revision) (p : ℤ) :
    ((revLoop revs p).map (fun d => d.change)).sum = lastSizeFrom revs p - p := by
  induction revs generalizing p with
  | nil => simp [revLoop, lastSizeFrom]
  | cons r rs ih =>
      rw [lastSizeFrom_cons]
      simp only [revLoop, List.map_cons, List.sum_cons, ih]
      ring

/-! Supporting lemmas about the aggregation loop. -/

theorem applyDelta_eq (s : Stats) (c : ℤ) :
    applyDelta s c =
      { edits := s.edits + 1
        text_added := s.text_added + (if 0 < c then c else 0)
        text_removed := s.text_removed + (if 0 < c then 0 else |c|) } := by
  unfold applyDelta
  split_ifs <;> simp

theorem sumEdits_update (m : StatsMap) (u : String) (c : ℤ) :
    ((updateMap m u c).map (fun p => p.2.edits)).sum
      = (m.map (fun p => p.2.edits)).sum + 1 := by
  induction m with
  | nil => simp [updateMap, applyDelta_eq, Stats.fresh]
  | cons kv rest ih =>
      obtain ⟨k, v⟩ := kv
      by_cases hk : k = u
      · simp [updateMap, hk, applyDelta_eq]
        omega
      · simp [updateMap, hk, ih]
        omega

theorem sumAdded_update (m : StatsMap) (u : String) (c : ℤ) :
    ((updateMap m u c).map (fun p => p.2.text_added)).sum
      = (m.map (fun p => p.2.text_added)).sum + (if 0 < c then c else 0) := by
  induction m with
  | nil => simp [updateMap, applyDelta_eq, Stats.fresh]
  | cons kv rest ih =>
      obtain ⟨k, v⟩ := kv
      by_cases hk : k = u
      · simp [updateMap, hk, applyDelta_eq]
        ring
      · simp [updateMap, hk, ih]
        ring

theorem sumRemoved_update (m : StatsMap) (u : String) (c : ℤ) :
    ((updateMap m u c).map (fun p => p.2.text_removed)).sum
      = (m.map (fun p => p.2.text_removed)).sum + (if 0 < c then 0 else |c|) := by
  induction m with
  | nil => simp [updateMap, applyDelta_eq, Stats.fresh]
  | cons kv rest ih =>
      obtain ⟨k, v⟩ := kv
      by_cases hk : k = u
      · simp [updateMap, hk, applyDelta_eq]
        ring
      · simp [updateMap, hk, ih]
        ring

theorem keys_update (m : StatsMap) (u : String) (c : ℤ) :
    (updateMap m u c).map Prod.fst =
      if u ∈ m.map Prod.fst then m.map Prod.fst else m.map Prod.fst ++ [u] := by
  induction m with
  | nil => simp [updateMap]
  | cons kv rest ih =>
      obtain ⟨k, v⟩ := kv
      by_cases hk : k = u
      · simp [updateMap, hk]
      · have hne : ¬ u = k := fun h => hk h.symm
        by_cases hmem : u ∈ rest.map Prod.fst <;>
          simp [updateMap, hk, ih, hne, hmem]

theorem sumEdits_accum_from (ds : List DeltaRec) (m : StatsMap) :
    ((ds.foldl (fun m d => updateMap m d.user d.change) m).map (fun p => p.2.edits)).sum
      = (m.map (fun p => p.2.edits)).sum + ds.length := by
  induction ds generalizing m with
  | nil => simp
  | cons d rest ih =>
      simp only [List.foldl_cons, ih, sumEdits_update, List.length_cons]
      omega

theorem sumAdded_accum_from (ds : List DeltaRec) (m : StatsMap) :
    ((ds.foldl (fun m d => updateMap m d.user d.change) m).map (fun p => p.2.text_added)).sum
      = (m.map (fun p => p.2.text_added)).sum
        + (ds.map (fun d => if 0 < d.change then d.change else 0)).sum := by
  induction ds generalizing m with
  | nil => simp
  | cons d rest ih =>
      simp only [List.foldl_cons, ih, sumAdded_update, List.map_cons, List.sum_cons]
      ring

theorem sumRemoved_accum_from (ds : List DeltaRec) (m : StatsMap) :
    ((ds.foldl (fun m d => updateMap m d.user d.change) m).map (fun p => p.2.text_removed)).sum
      = (m.map (fun p => p.2.text_removed)).sum
        + (ds.map (fun d => if 0 < d.change then 0 else |d.change|)).sum := by
  induction ds generalizing m with
  | nil => simp
  | cons d rest ih =>
      simp only [List.foldl_cons, ih, sumRemoved_update, List.map_cons, List.sum_cons]
      ring

theorem keys_accum_from (ds : List DeltaRec) (m : StatsMap) :
    (ds.foldl (fun m d => updateMap m d.user d.change) m).map Prod.fst
      = ds.foldl (fun acc d => if d.user ∈ acc then acc else acc ++ [d.user])
          (m.map Prod.fst) := by
  induction ds generalizing m with
  | nil => simp
  | cons d rest ih =>
      simp only [List.foldl_cons, ih, keys_update]

theorem sumEdits_accum (ds : List DeltaRec) :
    ((accumulate ds).map (fun p => p.2.edits)).sum = ds.length := by
  simpa [accumulate] using sumEdits_accum_from ds []

theorem total_eq_posSum (ds : List DeltaRec) :
    total_text_added ds = (ds.map (fun d => if 0 < d.change then d.change else 0)).sum := by
  simpa [total_text_added, accumulate] using sumAdded_accum_from ds []

theorem removed_eq_negSum (ds : List DeltaRec) :
    ((accumulate ds).map (fun p => p.2.text_removed)).sum
      = (ds.map (fun d => if 0 < d.change then 0 else |d.change|)).sum := by
  simpa [accumulate] using sumRemoved_accum_from ds []

theorem keys_accum (ds : List DeltaRec) :
    (accumulate ds).map Prod.fst = firstSeen ds := by
  simpa [accumulate, firstSeen] using keys_accum_from ds []

/-! Supporting lemmas about the processed list and the sort comparison. -/

theorem processed_user (ds : List DeltaRec) :
    (processed_stats ds).map (fun s => s.user) = (accumulate ds).map Prod.fst := by
  simp [processed_stats, List.map_map]

theorem processed_edits (ds : List DeltaRec) :
    (processed_stats ds).map (fun s => s.edits) = (accumulate ds).map (fun p => p.2.edits) := by
  simp [processed_stats, List.map_map]

theorem processed_added (ds : List DeltaRec) :
    (processed_stats ds).map (fun s => s.text_added)
      = (accumulate ds).map (fun p => p.2.text_added) := by
  simp [processed_stats, List.map_map]

theorem processed_removed (ds : List DeltaRec) :
    (processed_stats ds).map (fun s => s.text_removed)
      = (accumulate ds).map (fun p => p.2.text_removed) := by
  simp [processed_stats, List.map_map]

theorem percDesc_trans (a b c : ProcessedStats) :
    percDesc a b = true → percDesc b c = true → percDesc a c = true := by
  simp only [percDesc, decide_eq_true_eq]
  exact fun h1 h2 => le_trans h2 h1

theorem percDesc_total (a b : ProcessedStats) :
    (percDesc a b || percDesc b a) = true := by
  simp only [percDesc, Bool.or_eq_true, decide_eq_true_eq]
  exact le_total b.percentage a.percentage

/-! Claim theorems. -/

/-- C1: on the revision sequence A:100, B:150, A:120 the diff processor
emits the deltas (A,+100), (B,+50), (A,-30), and the aggregator returns
A with 2 edits, 100 added, 30 removed, percentage 100/150*100 and
B with 1 edit, 50 added, 0 removed, percentage 50/150*100, ranked [A, B]. -/
theorem c1_concrete_scenario :
    get_revision_data demoRevs = demoDeltas ∧
    aggregate_user_stats demoDeltas =
      [{ user := ("A"), percentage := (100 : ℚ) / 150 * 100, edits := 2
         text_added := 100, text_removed := 30 },
       { user := ("B"), percentage := (50 : ℚ) / 150 * 100, edits := 1
         text_added := 50, text_removed := 0 }] := by
  refine ⟨by decide, ?_⟩
  have hacc : accumulate demoDeltas =
      [(("A"), ⟨2, 100, 30⟩), (("B"), ⟨1, 50, 0⟩)] := by decide
  have htot : total_text_added demoDeltas = 150 := by decide
  have hproc : processed_stats demoDeltas =
      [{ user := ("A"), percentage := (100 : ℚ) / 150 * 100, edits := 2
         text_added := 100, text_removed := 30 },
       { user := ("B"), percentage := (50 : ℚ) / 150 * 100, edits := 1
         text_added := 50, text_removed := 0 }] := by
    simp only [processed_stats, hacc, htot, List.map_cons, List.map_nil]
    norm_num
  have hsorted : (processed_stats demoDeltas).mergeSort percDesc
      = processed_stats demoDeltas := by
    apply List.mergeSort_of_sorted
    rw [hproc]
    refine List.pairwise_cons.mpr ⟨?_, ?_⟩
    · intro b hb
      simp only [List.mem_singleton] at hb
      subst hb
      simp only [percDesc, decide_eq_true_eq]
      norm_num
    · simp
  simp only [aggregate_user_stats, htot]
  rw [if_neg (by norm_num), hsorted, hproc]

/-- C2: the diff processor maps a revision sequence to an equal-length
delta sequence in order; the i-th change is the i-th size minus its
predecessor's size (0 before the first revision), a missing author is
replaced by Unknown, a missing size by 0, and empty input gives empty
output. -/
theorem c2_diff_processor_contract (revs : List Revision) :
    (get_revision_data revs).length = revs.length ∧
    get_revision_data ([] : List Revision) = [] ∧
    ∀ i, i < revs.length →
      (get_revision_data revs).getD i ⟨("Unknown"), 0⟩ =
        { user := (revs.getD i ⟨none, none⟩).user.getD ("Unknown")
          change := ((revs.getD i ⟨none, none⟩).size.getD 0 : ℤ) - prevSize revs i } := by
  refine ⟨revLoop_length revs 0, rfl, ?_⟩
  intro i hi
  have := revLoop_getD revs 0 i hi
  simpa [get_revision_data, prevSize] using this

/-- Witness for C2 at a revision with both fields absent, index 0. -/
theorem c2_diff_processor_contract_witness :
    (get_revision_data [⟨none, none⟩, ⟨some ("B"), some 150⟩]).getD 0 ⟨("Unknown"), 0⟩ =
      { user := (([⟨none, none⟩, ⟨some ("B"), some 150⟩] : List Revision).getD 0
          ⟨none, none⟩).user.getD ("Unknown")
        change := ((([⟨none, none⟩, ⟨some ("B"), some 150⟩] : List Revision).getD 0
            ⟨none, none⟩).size.getD 0 : ℤ)
          - prevSize [⟨none, none⟩, ⟨some ("B"), some 150⟩] 0 } :=
  (c2_diff_processor_contract [⟨none, none⟩, ⟨some ("B"), some 150⟩]).2.2 0 (by decide)

/-- C3: for one delta record the aggregator increments the author's edit
count, adds a strictly positive change to text_added and otherwise
(zero included) adds the absolute change to text_removed, leaving every
other author's entry untouched; the accumulation over a sequence is the
fold of this per-record step. -/
theorem c3_per_record_accumulation (m : StatsMap) (u : String) (c : ℤ) :
    lookupMap (updateMap m u c) u =
      some { edits := ((lookupMap m u).getD Stats.fresh).edits + 1
             text_added := ((lookupMap m u).getD Stats.fresh).text_added
               + (if 0 < c then c else 0)
             text_removed := ((lookupMap m u).getD Stats.fresh).text_removed
               + (if 0 < c then 0 else |c|) } ∧
    (∀ v, v ≠ u → lookupMap (updateMap m u c) v = lookupMap m v) ∧
    (∀ ds : List DeltaRec,
      accumulate (ds ++ [⟨u, c⟩]) = updateMap (accumulate ds) u c) := by
  refine ⟨?_, ?_, ?_⟩
  · induction m with
    | nil => simp [updateMap, lookupMap, applyDelta_eq]
    | cons kv rest ih =>
        obtain ⟨k, v⟩ := kv
        by_cases hk : k = u
        · simp [updateMap, lookupMap, hk, applyDelta_eq]
        · simp [updateMap, lookupMap, hk, ih]
  · intro v hv
    have hvu : ¬ u = v := fun h => hv h.symm
    induction m with
    | nil => simp [updateMap, lookupMap, hvu]
    | cons kv rest ih =>
        obtain ⟨k, w⟩ := kv
        by_cases hk : k = u
        · subst hk
          have hkv : ¬ k = v := fun h => hv h.symm
          simp [updateMap, lookupMap, hkv]
        · by_cases hkv : k = v <;> simp [updateMap, lookupMap, hk, hkv, ih, hv]
  · intro ds
    simp [accumulate, List.foldl_append]

/-- Witness for C3 on a one-entry map, a negative change and another key. -/
theorem c3_per_record_accumulation_witness :
    lookupMap (updateMap [(("A"), ⟨1, 5, 0⟩)] ("A") (-3)) ("A") =
      some { edits := ((lookupMap [(("A"), ⟨1, 5, 0⟩)] ("A")).getD Stats.fresh).edits + 1
             text_added := ((lookupMap [(("A"), ⟨1, 5, 0⟩)] ("A")).getD Stats.fresh).text_added
               + (if 0 < (-3 : ℤ) then (-3 : ℤ) else 0)
             text_removed := ((lookupMap [(("A"), ⟨1, 5, 0⟩)] ("A")).getD Stats.fresh).text_removed
               + (if 0 < (-3 : ℤ) then 0 else |(-3 : ℤ)|) } ∧
    lookupMap (updateMap [(("A"), ⟨1, 5, 0⟩)] ("A") (-3)) ("B")
      = lookupMap [(("A"), ⟨1, 5, 0⟩)] ("B") ∧
    accumulate ([⟨("A"), 5⟩] ++ [⟨("A"), -3⟩])
      = updateMap (accumulate [⟨("A"), 5⟩]) ("A") (-3) :=
  ⟨(c3_per_record_accumulation [(("A"), ⟨1, 5, 0⟩)] ("A") (-3)).1,
   (c3_per_record_accumulation [(("A"), ⟨1, 5, 0⟩)] ("A") (-3)).2.1 ("B") (by decide),
   (c3_per_record_accumulation [(("A"), ⟨1, 5, 0⟩)] ("A") (-3)).2.2 [⟨("A"), 5⟩]⟩

/-- Counterexample for C5: a well-formed one-revision history whose single
change is zero makes the aggregator return the empty list, so the edits
sum 0 differs from the revision count 1. -/
theorem c5_counterexample :
    ¬ (((aggregate_user_stats (get_revision_data [⟨some ("A"), some 0⟩])).map
        (fun s => s.edits)).sum = ([⟨some ("A"), some 0⟩] : List Revision).length) := by
  decide

/-- C5 amended: whenever the aggregator actually produces statistics (total
added text non-zero, so the empty-list guard is not taken), the edit counts
over all authors sum to the number of input revisions. -/
theorem c5_edits_sum (revs : List Revision)
    (h : total_text_added (get_revision_data revs) ≠ 0) :
    ((aggregate_user_stats (get_revision_data revs)).map (fun s => s.edits)).sum
      = revs.length := by
  simp only [aggregate_user_stats]
  rw [if_neg h]
  have hperm := (List.mergeSort_perm (processed_stats (get_revision_data revs))
    percDesc).map (fun s => s.edits)
  rw [hperm.sum_eq, processed_edits, sumEdits_accum]
  exact revLoop_length revs 0

/-- Witness for the amended C5 at the concrete scenario input. -/
theorem c5_edits_sum_witness :
    total_text_added (get_revision_data demoRevs) ≠ 0 ∧
    ((aggregate_user_stats (get_revision_data demoRevs)).map (fun s => s.edits)).sum
      = demoRevs.length :=
  ⟨by decide, c5_edits_sum demoRevs (by decide)⟩

/-- C4: when the total added text is zero the aggregator returns the empty
ranked list (taking the guard branch, so no percentage is ever computed). -/
theorem c4_no_content_added (ds : List DeltaRec)
    (h : total_text_added ds = 0) : aggregate_user_stats ds = [] := by
  simp [aggregate_user_stats, h]

/-- Witness for C4 on a sequence with only non-positive changes. -/
theorem c4_no_content_added_witness :
    total_text_added [⟨("A"), 0⟩, ⟨("B"), -7⟩] = 0 ∧
    aggregate_user_stats [⟨("A"), 0⟩, ⟨("B"), -7⟩] = [] :=
  ⟨by decide, c4_no_content_added [⟨("A"), 0⟩, ⟨("B"), -7⟩] (by decide)⟩

theorem processed_percentage (ds : List DeltaRec)
    (h : 0 < total_text_added ds) :
    (processed_stats ds).map (fun s => s.percentage)
      = (accumulate ds).map
          (fun p => ((p.2.text_added : ℚ) / (total_text_added ds : ℚ)) * 100) := by
  simp [processed_stats, List.map_map, h]

theorem sum_map_div_mul (l : List ℤ) (T : ℚ) :
    (l.map (fun x : ℤ => ((x : ℚ) / T) * 100)).sum = ((l.sum : ℤ) : ℚ) / T * 100 := by
  induction l with
  | nil => simp
  | cons x xs ih =>
      simp only [List.map_cons, List.sum_cons, ih]
      push_cast
      ring

/-- C6: whenever the total added text is strictly positive, the percentages
of the ranked statistics sum to exactly 100 in rational arithmetic. -/
theorem c6_percentages_sum (ds : List DeltaRec)
    (h : 0 < total_text_added ds) :
    ((aggregate_user_stats ds).map (fun s => s.percentage)).sum = 100 := by
  have hne : total_text_added ds ≠ 0 := ne_of_gt h
  have hQ : ((total_text_added ds : ℤ) : ℚ) ≠ 0 := Int.cast_ne_zero.mpr hne
  simp only [aggregate_user_stats]
  rw [if_neg hne]
  have hperm := (List.mergeSort_perm (processed_stats ds) percDesc).map
    (fun s => s.percentage)
  rw [hperm.sum_eq, processed_percentage ds h]
  have hmm : (accumulate ds).map
      (fun p => ((p.2.text_added : ℚ) / (total_text_added ds : ℚ)) * 100)
      = ((accumulate ds).map (fun p => p.2.text_added)).map
          (fun x : ℤ => ((x : ℚ) / (total_text_added ds : ℚ)) * 100) := by
    rw [List.map_map]
    rfl
  rw [hmm, sum_map_div_mul]
  rw [show ((accumulate ds).map (fun p => p.2.text_added)).sum
      = total_text_added ds from rfl]
  rw [div_self hQ]
  norm_num

/-- Witness for C6 at the concrete scenario deltas. -/
theorem c6_percentages_sum_witness :
    0 < total_text_added demoDeltas ∧
    ((aggregate_user_stats demoDeltas).map (fun s => s.percentage)).sum = 100 :=
  ⟨by decide, c6_percentages_sum demoDeltas (by decide)⟩

theorem lastSize_eq (revs : List Revision) :
    lastSize revs = lastSizeFrom revs 0 := by
  unfold lastSize lastSizeFrom
  cases revs.getLast? <;> rfl

theorem lastSize_nonneg (revs : List Revision) : 0 ≤ lastSize revs := by
  unfold lastSize
  cases revs.getLast? with
  | none => exact le_refl 0
  | some r => exact Int.natCast_nonneg _

theorem posSum_sub_negSum (ds : List DeltaRec) :
    (ds.map (fun d => if 0 < d.change then d.change else 0)).sum
      - (ds.map (fun d => if 0 < d.change then 0 else |d.change|)).sum
      = (ds.map (fun d => d.change)).sum := by
  induction ds with
  | nil => simp
  | cons d rest ih =>
      simp only [List.map_cons, List.sum_cons]
      have hd : (if 0 < d.change then d.change else 0)
          - (if 0 < d.change then 0 else |d.change|) = d.change := by
        by_cases hc : 0 < d.change
        · simp [hc]
        · simp [hc, abs_of_nonpos (le_of_not_lt hc)]
      omega

theorem negSum_nonneg (ds : List DeltaRec) :
    0 ≤ (ds.map (fun d => if 0 < d.change then 0 else |d.change|)).sum := by
  apply List.sum_nonneg
  intro x hx
  obtain ⟨d, _, rfl⟩ := List.mem_map.mp hx
  by_cases hc : 0 < d.change
  · simp [hc]
  · simp [hc, abs_nonneg]

/-- C10: the changes emitted by the diff processor telescope to the last
revision's size (0 for the empty history), and the aggregated added minus
removed totals equal that same final size. -/
theorem c10_size_conservation (revs : List Revision) :
    ((get_revision_data revs).map (fun d => d.change)).sum = lastSize revs ∧
    lastSize ([] : List Revision) = 0 ∧
    ((aggregate_user_stats (get_revision_data revs)).map (fun s => s.text_added)).sum
      - ((aggregate_user_stats (get_revision_data revs)).map (fun s => s.text_removed)).sum
      = lastSize revs := by
  have h1 : ((get_revision_data revs).map (fun d => d.change)).sum = lastSize revs := by
    rw [lastSize_eq]
    simpa [get_revision_data] using revLoop_sum revs 0
  refine ⟨h1, rfl, ?_⟩
  by_cases h0 : total_text_added (get_revision_data revs) = 0
  · rw [c4_no_content_added _ h0]
    have hpos := total_eq_posSum (get_revision_data revs)
    have hpn := posSum_sub_negSum (get_revision_data revs)
    have hneg := negSum_nonneg (get_revision_data revs)
    have hlast := lastSize_nonneg revs
    simp only [List.map_nil, List.sum_nil]
    rw [h0] at hpos
    omega
  · simp only [aggregate_user_stats]
    rw [if_neg h0]
    have hpermA := (List.mergeSort_perm (processed_stats (get_revision_data revs))
      percDesc).map (fun s => s.text_added)
    have hpermR := (List.mergeSort_perm (processed_stats (get_revision_data revs))
      percDesc).map (fun s => s.text_removed)
    rw [hpermA.sum_eq, hpermR.sum_eq, processed_added, processed_removed]
    have hpos := total_eq_posSum (get_revision_data revs)
    have hneg := removed_eq_negSum (get_revision_data revs)
    have hpn := posSum_sub_negSum (get_revision_data revs)
    rw [show ((accumulate (get_revision_data revs)).map (fun p => p.2.text_added)).sum
        = total_text_added (get_revision_data revs) from rfl, hneg, hpos, hpn, h1]

/-- C7: the ranked list is sorted non-increasing by percentage, and within
any group of equal percentage the authors keep their first-encounter order
from the delta sequence (the filtered user list is a subsequence of the
first-encounter author order); no other key influences the order. -/
theorem c7_ranking_order (ds : List DeltaRec) :
    List.Pairwise (fun a b => b.percentage ≤ a.percentage) (aggregate_user_stats ds) ∧
    ∀ p : ℚ,
      (((aggregate_user_stats ds).filter (fun s => decide (s.percentage = p))).map
          (fun s => s.user)).Sublist (firstSeen ds) := by
  by_cases h0 : total_text_added ds = 0
  · constructor
    · simp [aggregate_user_stats, h0]
    · intro p
      simp only [aggregate_user_stats, if_pos h0, List.filter_nil, List.map_nil]
      exact List.nil_sublist _
  · have hagg : aggregate_user_stats ds = (processed_stats ds).mergeSort percDesc := by
      simp [aggregate_user_stats, h0]
    constructor
    · rw [hagg]
      exact (List.sorted_mergeSort percDesc_trans percDesc_total
        (processed_stats ds)).imp (fun h => by
          simpa [percDesc] using h)
    · intro p
      rw [hagg]
      have h1 : ((processed_stats ds).filter (fun s => decide (s.percentage = p))).Sublist
          (processed_stats ds) := List.filter_sublist _
      have h2 : List.Pairwise (fun a b => percDesc a b = true)
          ((processed_stats ds).filter (fun s => decide (s.percentage = p))) := by
        apply List.pairwise_of_forall_mem_list
        intro a ha b hb
        have hpa : a.percentage = p := by
          simpa using (List.mem_filter.mp ha).2
        have hpb : b.percentage = p := by
          simpa using (List.mem_filter.mp hb).2
        simp [percDesc, hpa, hpb]
      have h3 : ((processed_stats ds).filter (fun s => decide (s.percentage = p))).Sublist
          ((processed_stats ds).mergeSort percDesc) :=
        List.sublist_mergeSort percDesc_trans percDesc_total h2 h1
      have h4 : ((processed_stats ds).filter (fun s => decide (s.percentage = p))).filter
          (fun s => decide (s.percentage = p))
          = (processed_stats ds).filter (fun s => decide (s.percentage = p)) :=
        List.filter_eq_self.mpr (fun a ha => (List.mem_filter.mp ha).2)
      have h5 : ((processed_stats ds).filter (fun s => decide (s.percentage = p))).Sublist
          (((processed_stats ds).mergeSort percDesc).filter
              (fun s => decide (s.percentage = p))) := by
        have := h3.filter (fun s => decide (s.percentage = p))
        rwa [h4] at this
      have h6 : (((processed_stats ds).mergeSort percDesc).filter
            (fun s => decide (s.percentage = p))).Perm
          ((processed_stats ds).filter (fun s => decide (s.percentage = p))) :=
        (List.mergeSort_perm (processed_stats ds) percDesc).filter _
      have h7 : ((processed_stats ds).mergeSort percDesc).filter
            (fun s => decide (s.percentage = p))
          = (processed_stats ds).filter (fun s => decide (s.percentage = p)) :=
        (h5.eq_of_length h6.length_eq.symm).symm
      rw [h7]
      have h8 := (h1.map (fun s => s.user))
      rwa [processed_user, keys_accum] at h8

/-! Supporting lemmas about escaping, formatting and the rendered document. -/

theorem occursIn_append_left (xs a ys : List Char) (h : occursIn xs ys) :
    occursIn xs (a ++ ys) := by
  obtain ⟨pre, post, rfl⟩ := h
  exact ⟨a ++ pre, post, by simp⟩

theorem occursIn_append_right (xs ys b : List Char) (h : occursIn xs ys) :
    occursIn xs (ys ++ b) := by
  obtain ⟨pre, post, rfl⟩ := h
  exact ⟨pre, post ++ b, by simp⟩

theorem escapeChar_safe (c c' : Char) (h : c' ∈ escapeChar c) : safeChar c' := by
  unfold escapeChar at h
  split_ifs at h with h1 h2 h3 h4 h5
  · simp only [List.mem_cons, List.not_mem_nil, or_false] at h
    rcases h with rfl | rfl | rfl | rfl | rfl <;> decide
  · simp only [List.mem_cons, List.not_mem_nil, or_false] at h
    rcases h with rfl | rfl | rfl | rfl <;> decide
  · simp only [List.mem_cons, List.not_mem_nil, or_false] at h
    rcases h with rfl | rfl | rfl | rfl <;> decide
  · simp only [List.mem_cons, List.not_mem_nil, or_false] at h
    rcases h with rfl | rfl | rfl | rfl | rfl | rfl <;> decide
  · simp only [List.mem_cons, List.not_mem_nil, or_false] at h
    rcases h with rfl | rfl | rfl | rfl | rfl | rfl <;> decide
  · simp only [List.mem_singleton] at h
    subst h
    exact ⟨h2, h3, h4, h5⟩

theorem htmlEscape_safe (s : String) : ∀ c ∈ (htmlEscape s).data, safeChar c := by
  intro c hc
  simp only [htmlEscape] at hc
  obtain ⟨a, _, ha⟩ := List.mem_flatMap.mp hc
  exact escapeChar_safe a c ha

theorem digitChar_safe (d : Nat) (h : d < 10) : safeChar (Nat.digitChar d) := by
  interval_cases d <;> decide

theorem comma_safe : safeChar ',' := by decide

theorem digitsRev_lt_ten (fuel n : Nat) : ∀ d ∈ digitsRev fuel n, d < 10 := by
  induction fuel generalizing n with
  | zero => simp [digitsRev]
  | succ f ih =>
      cases n with
      | zero => simp [digitsRev]
      | succ m =>
          intro d hd
          simp only [digitsRev, List.mem_cons] at hd
          rcases hd with rfl | hd
          · exact Nat.mod_lt _ (by norm_num)
          · exact ih _ d hd

theorem natStr_safe (n : Nat) : ∀ c ∈ (natStr n).data, safeChar c := by
  intro c hc
  unfold natStr at hc
  split_ifs at hc
  · simp only [List.mem_singleton] at hc
    subst hc
    decide
  · simp only [List.mem_reverse, List.mem_map] at hc
    obtain ⟨d, hd, rfl⟩ := hc
    exact digitChar_safe d (digitsRev_lt_ten n n d hd)

theorem commaRev_safe (l : List Nat) (k : Nat) (hl : ∀ d ∈ l, d < 10) :
    ∀ c ∈ commaRev l k, safeChar c := by
  induction l generalizing k with
  | nil => simp [commaRev]
  | cons d ds ih =>
      intro c hc
      simp only [commaRev, List.mem_cons] at hc
      rcases hc with rfl | hc
      · exact digitChar_safe d (hl d (by simp))
      · split_ifs at hc with hcond
        · simp only [List.mem_cons] at hc
          rcases hc with rfl | hc
          · exact comma_safe
          · exact ih (k + 1) (fun x hx => hl x (by simp [hx])) c hc
        · exact ih (k + 1) (fun x hx => hl x (by simp [hx])) c hc

theorem commaNat_safe (n : Nat) : ∀ c ∈ (commaNat n).data, safeChar c := by
  intro c hc
  unfold commaNat at hc
  split_ifs at hc
  · simp only [List.mem_singleton] at hc
    subst hc
    decide
  · simp only [List.mem_reverse] at hc
    exact commaRev_safe (digitsRev n n) 0 (digitsRev_lt_ten n n) c hc

theorem commaInt_safe (n : ℤ) : ∀ c ∈ (commaInt n).data, safeChar c := by
  intro c hc
  unfold commaInt at hc
  rw [String.data_append] at hc
  rcases List.mem_append.mp hc with hc | hc
  · split_ifs at hc
    · simp only [List.mem_singleton] at hc
      subst hc
      decide
    · simp at hc
  · exact commaNat_safe n.natAbs c hc

theorem format2_safe (x : ℚ) : ∀ c ∈ (format2 x).data, safeChar c := by
  intro c hc
  unfold format2 at hc
  simp only [String.data_append] at hc
  rcases List.mem_append.mp hc with hc | hc
  · rcases List.mem_append.mp hc with hc | hc
    · rcases List.mem_append.mp hc with hc | hc
      · split_ifs at hc
        · simp only [List.mem_singleton] at hc
          subst hc
          decide
        · simp at hc
      · exact natStr_safe _ c hc
    · simp only [List.mem_singleton] at hc
      subst hc
      decide
  · simp only [List.mem_cons] at hc
    rcases hc with rfl | rfl | hc
    · exact digitChar_safe _ (by omega)
    · exact digitChar_safe _ (by omega)
    · simp at hc

theorem count_lt_zero_of_safe (l : List Char) (h : ∀ c ∈ l, safeChar c) :
    l.count '<' = 0 :=
  List.count_eq_zero.mpr (fun hm => ((h _ hm).1 rfl))

theorem rowHtml_count_lt (d : ProcessedStats) :
    (rowHtml d).data.count '<'
      = rowSeg1.data.count '<' + rowSeg2.data.count '<' + rowSeg3.data.count '<'
        + rowSeg4.data.count '<' + rowSeg5.data.count '<' + rowSeg6.data.count '<'
        + rowSeg7.data.count '<' + rowSeg8.data.count '<' := by
  simp only [rowHtml, String.data_append, List.count_append]
  rw [count_lt_zero_of_safe _ (htmlEscape_safe d.user),
    count_lt_zero_of_safe _ (format2_safe d.percentage),
    count_lt_zero_of_safe _ (commaNat_safe d.edits),
    count_lt_zero_of_safe _ (commaInt_safe d.text_added),
    count_lt_zero_of_safe _ (commaInt_safe d.text_removed)]
  omega

theorem table_rows_eq_rowsJoin_from (stats : List ProcessedStats) (acc : String) :
    stats.foldl (fun a d => a ++ rowHtml d) acc = acc ++ rowsJoin stats := by
  induction stats generalizing acc with
  | nil => simp [rowsJoin]
  | cons d rest ih =>
      simp only [List.foldl_cons, ih, rowsJoin]
      rw [String.append_assoc]

theorem table_rows_eq_rowsJoin (stats : List ProcessedStats) :
    table_rows stats = rowsJoin stats := by
  simpa [table_rows] using table_rows_eq_rowsJoin_from stats ("")

theorem rowsJoin_count_lt (stats : List ProcessedStats) :
    (rowsJoin stats).data.count '<'
      = stats.length
        * (rowSeg1.data.count '<' + rowSeg2.data.count '<' + rowSeg3.data.count '<'
           + rowSeg4.data.count '<' + rowSeg5.data.count '<' + rowSeg6.data.count '<'
           + rowSeg7.data.count '<' + rowSeg8.data.count '<') := by
  induction stats with
  | nil => simp [rowsJoin]
  | cons d rest ih =>
      simp only [rowsJoin, String.data_append, List.count_append, ih,
        rowHtml_count_lt, List.length_cons]
      ring

theorem create_html_report_count_lt (stats : List ProcessedStats) (title : String) :
    (create_html_report stats title).data.count '<'
      = tmplSeg1.data.count '<' + tmplSeg2.data.count '<' + tmplSeg3.data.count '<'
        + tmplSeg4.data.count '<'
        + stats.length
          * (rowSeg1.data.count '<' + rowSeg2.data.count '<' + rowSeg3.data.count '<'
             + rowSeg4.data.count '<' + rowSeg5.data.count '<' + rowSeg6.data.count '<'
             + rowSeg7.data.count '<' + rowSeg8.data.count '<') := by
  simp only [create_html_report, String.data_append, List.count_append,
    table_rows_eq_rowsJoin, rowsJoin_count_lt]
  rw [count_lt_zero_of_safe _ (htmlEscape_safe title)]
  omega

theorem user_occurs_in_rowHtml (d : ProcessedStats) :
    occursIn (htmlEscape d.user).data (rowHtml d).data := by
  refine ⟨rowSeg1.data,
    (rowSeg2 ++ htmlEscape d.user ++ rowSeg3 ++ format2 d.percentage ++ rowSeg4
      ++ format2 d.percentage ++ rowSeg5 ++ commaNat d.edits ++ rowSeg6
      ++ commaInt d.text_added ++ rowSeg7 ++ commaInt d.text_removed ++ rowSeg8).data, ?_⟩
  simp [rowHtml, String.data_append]

theorem row_occurs_in_rowsJoin (d : ProcessedStats) (stats : List ProcessedStats)
    (h : d ∈ stats) : occursIn (rowHtml d).data (rowsJoin stats).data := by
  induction stats with
  | nil => simp at h
  | cons x rest ih =>
      rcases List.mem_cons.mp h with rfl | h
      · exact ⟨[], (rowsJoin rest).data, by simp [rowsJoin, String.data_append]⟩
      · have := ih h
        simp only [rowsJoin, String.data_append]
        exact occursIn_append_left _ _ _ this

/-- C8: author names and the page title reach the document only through
`html.escape`: escaped strings contain no markup-significant character at
all, every escaped author name and the escaped title occur verbatim in the
document, and the number of raw tag openers in the whole document depends
only on the number of rows, never on the content of any author-supplied
string. -/
theorem c8_escaped_embedding (stats : List ProcessedStats) (title : String) :
    (∀ s : String, ∀ c ∈ (htmlEscape s).data, safeChar c) ∧
    (∀ d ∈ stats,
      occursIn (htmlEscape d.user).data (create_html_report stats title).data) ∧
    occursIn (htmlEscape title).data (create_html_report stats title).data ∧
    (∀ (stats2 : List ProcessedStats) (title2 : String),
      stats2.length = stats.length →
      (create_html_report stats2 title2).data.count '<'
        = (create_html_report stats title).data.count '<') := by
  refine ⟨fun s => htmlEscape_safe s, ?_, ?_, ?_⟩
  · intro d hd
    have h1 : occursIn (rowHtml d).data (rowsJoin stats).data :=
      row_occurs_in_rowsJoin d stats hd
    have h2 : occursIn (htmlEscape d.user).data (rowsJoin stats).data :=
      match user_occurs_in_rowHtml d, h1 with
      | ⟨p1, q1, e1⟩, ⟨p2, q2, e2⟩ => ⟨p2 ++ p1, q1 ++ q2, by simp [e2, e1]⟩
    obtain ⟨p, q, hpq⟩ := h2
    refine ⟨(tmplSeg1 ++ htmlEscape title ++ tmplSeg2 ++ htmlEscape title
      ++ tmplSeg3).data ++ p, q ++ tmplSeg4.data, ?_⟩
    simp [create_html_report, table_rows_eq_rowsJoin, String.data_append, hpq]
  · refine ⟨tmplSeg1.data,
      (tmplSeg2 ++ htmlEscape title ++ tmplSeg3 ++ table_rows stats ++ tmplSeg4).data, ?_⟩
    simp [create_html_report, String.data_append]
  · intro stats2 title2 hlen
    rw [create_html_report_count_lt, create_html_report_count_lt, hlen]

/-- Witness for C8 with markup-significant characters in both the author
name and the title. -/
theorem c8_escaped_embedding_witness :
    (∀ c ∈ (htmlEscape ("x<y&z")).data, safeChar c) ∧
    occursIn (htmlEscape ("x<y&z")).data
      (create_html_report [⟨("x<y&z"), 0, 1, 2, 3⟩] ("T&T")).data ∧
    occursIn (htmlEscape ("T&T")).data
      (create_html_report [⟨("x<y&z"), 0, 1, 2, 3⟩] ("T&T")).data ∧
    (create_html_report [⟨("A"), 1, 1, 1, 1⟩] ("B")).data.count '<'
      = (create_html_report [⟨("x<y&z"), 0, 1, 2, 3⟩] ("T&T")).data.count '<' :=
  ⟨(c8_escaped_embedding [⟨("x<y&z"), 0, 1, 2, 3⟩] ("T&T")).1 ("x<y&z"),
   (c8_escaped_embedding [⟨("x<y&z"), 0, 1, 2, 3⟩] ("T&T")).2.1
     ⟨("x<y&z"), 0, 1, 2, 3⟩ (List.mem_singleton.mpr rfl),
   (c8_escaped_embedding [⟨("x<y&z"), 0, 1, 2, 3⟩] ("T&T")).2.2.1,
   (c8_escaped_embedding [⟨("x<y&z"), 0, 1, 2, 3⟩] ("T&T")).2.2.2
     [⟨("A"), 1, 1, 1, 1⟩] ("B") rfl⟩

theorem digitChar_mem (d : Nat) (h : d < 10) : Nat.digitChar d ∈ digitChars := by
  interval_cases d <;> decide

/-- C9 amended: the visual indicator's width and the displayed numeric value
are both the percentage formatted to two decimal places (the same rounded
value, not the exact percentage): the row embeds that formatted string in
the width attribute and in the percentage label, and the formatted string
always ends in a decimal point followed by exactly two digits. -/
theorem c9_two_decimal_rendering (d : ProcessedStats) :
    occursIn (("width: ").data ++ (format2 d.percentage).data ++ ("%;").data)
      (rowHtml d).data ∧
    occursIn ((format2 d.percentage).data ++ ("%</td>").data) (rowHtml d).data ∧
    ∃ pre d1 d2, (format2 d.percentage).data = pre ++ ['.', d1, d2]
      ∧ d1 ∈ digitChars ∧ d2 ∈ digitChars := by
  have hs3 : rowSeg3.data = rowSeg3a.data ++ ("width: ").data := by decide
  have hs4 : rowSeg4.data = ("%;").data ++ rowSeg4b.data := by decide
  have hs5 : rowSeg5.data = ("%</td>").data ++ rowSeg5b.data := by decide
  refine ⟨?_, ?_, ?_⟩
  · refine ⟨rowSeg1.data ++ (htmlEscape d.user).data ++ rowSeg2.data
      ++ (htmlEscape d.user).data ++ rowSeg3a.data,
      rowSeg4b.data ++ (format2 d.percentage).data ++ rowSeg5.data
      ++ (commaNat d.edits).data ++ rowSeg6.data ++ (commaInt d.text_added).data
      ++ rowSeg7.data ++ (commaInt d.text_removed).data ++ rowSeg8.data, ?_⟩
    simp only [rowHtml, String.data_append]
    rw [hs3, hs4]
    simp [List.append_assoc]
  · refine ⟨rowSeg1.data ++ (htmlEscape d.user).data ++ rowSeg2.data
      ++ (htmlEscape d.user).data ++ rowSeg3.data ++ (format2 d.percentage).data
      ++ rowSeg4.data,
      rowSeg5b.data ++ (commaNat d.edits).data ++ rowSeg6.data
      ++ (commaInt d.text_added).data ++ rowSeg7.data ++ (commaInt d.text_removed).data
      ++ rowSeg8.data, ?_⟩
    simp only [rowHtml, String.data_append]
    rw [hs5]
    simp [List.append_assoc]
  · refine ⟨(if halfEven (d.percentage * 100) < 0 then ("-") else ("")).data
      ++ (natStr ((halfEven (d.percentage * 100)).natAbs / 100)).data,
      Nat.digitChar ((halfEven (d.percentage * 100)).natAbs % 100 / 10),
      Nat.digitChar ((halfEven (d.percentage * 100)).natAbs % 10), ?_, ?_, ?_⟩
    · simp [format2, String.data_append, List.append_assoc]
    · exact digitChar_mem _ (by omega)
    · exact digitChar_mem _ (by omega)

set_option maxRecDepth 10000 in
/-- Counterexample for C9 as stated: at exact percentage 100/3 the rendered
row sizes the indicator with the string 33.33, whose value 3333/100 is not
the author's percentage, so the indicator is not sized exactly to the
percentage. -/
theorem c9_width_not_exact :
    rowHtml cex9 = ("\n        <tr>\n            <td><a href=\"https://en.wikipedia.org/wiki/User:A\" target=\"_blank\">A</a></td>\n            <td>\n                <div class=\"progress-bar-container\">\n                    <div class=\"progress-bar\" style=\"width: 33.33%;\"></div>\n                </div>\n            </td>\n            <td class=\"percentage-label\">33.33%</td>\n            <td class=\"number\">1</td>\n            <td class=\"number added\">+1</td>\n            <td class=\"number removed\">-0</td>\n        </tr>\n        ") ∧
    twoDecimalValue ((100 : ℚ) / 3) = 3333 / 100 ∧
    ((3333 : ℚ) / 100) ≠ (100 : ℚ) / 3 := by
  have hfloor : ⌊(100 / 3 : ℚ) * 100⌋ = 3333 := by norm_num
  have hhe : halfEven ((100 / 3 : ℚ) * 100) = 3333 := by
    unfold halfEven
    rw [hfloor]
    rw [if_pos (by norm_num)]
  have hfmt : format2 ((100 : ℚ) / 3) = ("33.33") := by
    unfold format2
    rw [hhe]
    decide
  refine ⟨?_, ?_, by norm_num⟩
  · simp only [rowHtml, cex9]
    rw [hfmt]
    decide
  · unfold twoDecimalValue
    rw [hhe]
    norm_num

end Wiki
